import Mathlib

/-!
Shallow embedding of the LibraryAPI book-catalog service
(github.com/nikitashershunov/LibraryAPI): the `data` package (Book model,
Pages scalar codec, SQL-backed CRUD and listing) and the `cmd/api` update
handler, together with the filter/validator components modelled from the
specification where the repository snapshot omits their files.
Strings are treated as sequences of unicode characters; Go's int64/int32
are embedded as `Int` with explicit range side conditions where they
matter.
-/

namespace LibraryAPI

/-! ### Go standard-library primitives used by the codec and handlers -/

/-- Value of a decimal digit character, `none` for any other character;
embeds the per-character step of Go `strconv.ParseInt` with base 10. -/
def digitVal (c : Char) : Option Nat :=
  if '0' ≤ c ∧ c ≤ '9' then some (c.toNat - '0'.toNat) else none

/-- Accumulating decimal scan over a character list (Go `strconv`
digit loop). -/
def parseDigitsAux (acc : Nat) : List Char → Option Nat
  | [] => some acc
  | c :: cs =>
    match digitVal c with
    | some d => parseDigitsAux (acc * 10 + d) cs
    | none => none

/-- Parse a non-empty all-digit character list as a natural number. -/
def parseDigits (cs : List Char) : Option Nat :=
  match cs with
  | [] => none
  | _ :: _ => parseDigitsAux 0 cs

/-- Embedding of Go `strconv.ParseInt(s, 10, 64)`: optional single leading
sign, then one or more decimal digits, value required to fit in int64. -/
def parseInt64 (cs : List Char) : Option Int :=
  match cs with
  | [] => none
  | c :: rest =>
    if c = '+' then
      (parseDigits rest).bind fun n =>
        if (n : Int) ≤ 2 ^ 63 - 1 then some (n : Int) else none
    else if c = '-' then
      (parseDigits rest).bind fun n =>
        if (n : Int) ≤ 2 ^ 63 then some (-(n : Int)) else none
    else
      (parseDigits cs).bind fun n =>
        if (n : Int) ≤ 2 ^ 63 - 1 then some (n : Int) else none

/-- Digit accumulator: prepends the decimal digits of `n` (least
significant digit computed first) in front of `acc`; `fuel` only bounds
the recursion depth and never runs out when `n < fuel`. -/
def natCharsAux : Nat → Nat → List Char → List Char
  | 0, _, acc => acc
  | fuel + 1, n, acc =>
    if n < 10 then Char.ofNat (48 + n % 10) :: acc
    else natCharsAux fuel (n / 10) (Char.ofNat (48 + n % 10) :: acc)

/-- Decimal digit characters of a natural number, most significant first;
embeds the digit production of Go `fmt.Sprintf` with verb d. -/
def natChars (n : Nat) : List Char :=
  natCharsAux (n + 1) n []

/-- Decimal rendering of an integer (Go `fmt.Sprintf` verb d /
`strconv.FormatInt` base 10). -/
def intChars (n : Int) : List Char :=
  if n < 0 then '-' :: natChars n.natAbs else natChars n.natAbs

/-- Embedding of Go `strings.Split(s, sep)` for a one-character
separator: split around every occurrence of the character, keeping
empty fragments. -/
def splitOnChar (sep : Char) : List Char → List (List Char)
  | [] => [[]]
  | c :: rest =>
    match splitOnChar sep rest with
    | [] => [[]]
    | p :: ps => if c = sep then [] :: p :: ps else (c :: p) :: ps

/-! ### Pages scalar codec (`internal/data`, Pages type) -/

/-- `Pages.MarshalJSON` before quoting: the text `<n> pages`. -/
def pagesMarshalText (n : Int) : List Char :=
  intChars n ++ (' ' :: "pages".data)

/-- `Pages.UnmarshalJSON` after `strconv.Unquote`: split on the space
character, require exactly two parts with second part the literal
`pages`, parse the first part as a base-10 int64; any failure is
`ErrInvalidCountPagesFormat`, embedded as `none`. -/
def pagesUnmarshalText (cs : List Char) : Option Int :=
  match splitOnChar ' ' cs with
  | [p0, p1] => if p1 = "pages".data then parseInt64 p0 else none
  | _ => none

/-! ### Lemmas about the decimal primitives -/

theorem digitChar_toNat {d : Nat} (h : d < 10) :
    (Char.ofNat (48 + d)).toNat = 48 + d := by
  interval_cases d <;> decide

theorem digitVal_digitChar {d : Nat} (h : d < 10) :
    digitVal (Char.ofNat (48 + d)) = some d := by
  interval_cases d <;> decide

theorem natCharsAux_ne_nil {fuel n : Nat} (h : n < fuel) (acc : List Char) :
    natCharsAux fuel n acc ≠ [] := by
  induction fuel generalizing n acc with
  | zero => omega
  | succ f ih =>
    unfold natCharsAux
    split
    · simp
    · next h10 =>
      exact ih (by omega) (Char.ofNat (48 + n % 10) :: acc)

theorem natChars_ne_nil (n : Nat) : natChars n ≠ [] :=
  natCharsAux_ne_nil (Nat.lt_succ_self n) []

theorem mem_natCharsAux_toNat {fuel n : Nat} {acc : List Char} {c : Char}
    (h : n < fuel) (hc : c ∈ natCharsAux fuel n acc) :
    (48 ≤ c.toNat ∧ c.toNat ≤ 57) ∨ c ∈ acc := by
  induction fuel generalizing n acc with
  | zero => omega
  | succ f ih =>
    unfold natCharsAux at hc
    split at hc
    · rcases List.mem_cons.mp hc with h1 | h2
      · subst h1
        rw [digitChar_toNat (Nat.mod_lt n (by omega))]
        omega
      · exact Or.inr h2
    · next h10 =>
      rcases ih (by omega) hc with h1 | h2
      · exact Or.inl h1
      · rcases List.mem_cons.mp h2 with h3 | h4
        · subst h3
          rw [digitChar_toNat (Nat.mod_lt n (by omega))]
          omega
        · exact Or.inr h4

theorem mem_natChars_toNat {n : Nat} {c : Char} (hc : c ∈ natChars n) :
    48 ≤ c.toNat ∧ c.toNat ≤ 57 := by
  rcases mem_natCharsAux_toNat (Nat.lt_succ_self n) hc with h | h
  · exact h
  · cases h

theorem parseDigitsAux_natCharsAux {fuel n : Nat} (h : n < fuel)
    (start : Nat) (cs : List Char) :
    ∃ k : Nat, parseDigitsAux start (natCharsAux fuel n cs) =
      parseDigitsAux (start * 10 ^ k + n) cs := by
  induction fuel generalizing n start cs with
  | zero => omega
  | succ f ih =>
    unfold natCharsAux
    split
    · next h10 =>
      refine ⟨1, ?_⟩
      have hd := digitVal_digitChar (Nat.mod_lt n (y := 10) (by omega))
      simp only [parseDigitsAux, hd]
      have : n % 10 = n := Nat.mod_eq_of_lt h10
      rw [this, pow_one]
    · next h10 =>
      rcases ih (n := n / 10) (by omega) start
          (Char.ofNat (48 + n % 10) :: cs) with ⟨k, hk⟩
      refine ⟨k + 1, ?_⟩
      rw [hk]
      have hd := digitVal_digitChar (Nat.mod_lt n (y := 10) (by omega))
      simp only [parseDigitsAux, hd]
      congr 1
      rw [pow_succ, ← mul_assoc]
      generalize start * 10 ^ k = A
      omega

theorem parseDigits_natChars (n : Nat) : parseDigits (natChars n) = some n := by
  cases hc : natChars n with
  | nil => exact absurd hc (natChars_ne_nil n)
  | cons c cs =>
    rcases parseDigitsAux_natCharsAux (Nat.lt_succ_self n) 0 [] with ⟨k, hk⟩
    rw [natChars] at hc
    rw [hc] at hk
    simpa [parseDigits, parseDigitsAux] using hk

theorem parseInt64_intChars {n : Int} (h1 : -(2 ^ 63) ≤ n) (h2 : n ≤ 2 ^ 63 - 1) :
    parseInt64 (intChars n) = some n := by
  unfold intChars
  split
  · next hn =>
    have habs : (n.natAbs : Int) = -n := by omega
    have hle : (n.natAbs : Int) ≤ 2 ^ 63 := by omega
    simp only [parseInt64]
    rw [if_neg (by decide : ¬('-' = '+')), if_pos trivial, parseDigits_natChars,
      Option.some_bind, if_pos hle, habs, neg_neg]
  · next hn =>
    cases hc : natChars n.natAbs with
    | nil => exact absurd hc (natChars_ne_nil _)
    | cons c cs =>
      have hcd : 48 ≤ c.toNat ∧ c.toNat ≤ 57 :=
        mem_natChars_toNat (hc ▸ List.mem_cons_self c cs)
      have hplus : ¬(c = '+') := by
        intro e
        rw [e] at hcd
        simp at hcd
      have hminus : ¬(c = '-') := by
        intro e
        rw [e] at hcd
        simp at hcd
      have habs : (n.natAbs : Int) = n := by omega
      have hle : (n.natAbs : Int) ≤ 2 ^ 63 - 1 := by omega
      simp only [parseInt64, if_neg hplus, if_neg hminus]
      rw [← hc, parseDigits_natChars, Option.some_bind, if_pos hle, habs]

/-! ### Lemmas about splitting -/

theorem splitOnChar_ne_nil (sep : Char) (cs : List Char) : splitOnChar sep cs ≠ [] := by
  cases cs with
  | nil => simp [splitOnChar]
  | cons c rest =>
    simp only [splitOnChar]
    cases splitOnChar sep rest with
    | nil => simp
    | cons p ps =>
      by_cases hcs : c = sep <;> simp [hcs]

/-- Inverse of `splitOnChar`: interleave the separator back between the
fragments. -/
def joinSep (sep : Char) : List (List Char) → List Char
  | [] => []
  | [p] => p
  | p :: q :: ps => p ++ sep :: joinSep sep (q :: ps)

theorem joinSep_splitOnChar (sep : Char) (cs : List Char) :
    joinSep sep (splitOnChar sep cs) = cs := by
  induction cs with
  | nil => simp [splitOnChar, joinSep]
  | cons c rest ih =>
    cases hr : splitOnChar sep rest with
    | nil => exact absurd hr (splitOnChar_ne_nil sep rest)
    | cons p ps =>
      rw [hr] at ih
      by_cases hcs : c = sep
      · subst hcs
        simp only [splitOnChar, hr, if_pos rfl, joinSep, List.nil_append]
        rw [ih]
      · simp only [splitOnChar, hr, if_neg hcs]
        cases ps with
        | nil =>
          simp only [joinSep] at ih ⊢
          rw [ih]
        | cons q qs =>
          simp only [joinSep] at ih ⊢
          rw [List.cons_append, ih]

theorem not_mem_of_mem_splitOnChar {sep : Char} {cs : List Char} {p : List Char}
    (hp : p ∈ splitOnChar sep cs) : sep ∉ p := by
  induction cs generalizing p with
  | nil =>
    simp only [splitOnChar, List.mem_singleton] at hp
    subst hp
    simp
  | cons c rest ih =>
    cases hr : splitOnChar sep rest with
    | nil => exact absurd hr (splitOnChar_ne_nil sep rest)
    | cons q qs =>
      by_cases hcs : c = sep
      · subst hcs
        simp only [splitOnChar, hr, if_pos rfl] at hp
        rcases List.mem_cons.mp hp with h1 | h2
        · subst h1
          simp
        · exact ih (hr ▸ h2)
      · simp only [splitOnChar, hr, if_neg hcs] at hp
        rcases List.mem_cons.mp hp with h1 | h2
        · subst h1
          intro hmem
          rcases List.mem_cons.mp hmem with h3 | h4
          · exact hcs h3.symm
          · exact ih (hr ▸ List.mem_cons_self q qs) h4
        · exact ih (hr ▸ List.mem_cons.mpr (Or.inr h2))

theorem splitOnChar_no_sep {sep : Char} {a : List Char} (ha : sep ∉ a) :
    splitOnChar sep a = [a] := by
  induction a with
  | nil => simp [splitOnChar]
  | cons c rest ih =>
    have hc : ¬(c = sep) := fun e => ha (e ▸ List.mem_cons_self c rest)
    have hrest : sep ∉ rest := fun hm => ha (List.mem_cons.mpr (Or.inr hm))
    simp only [splitOnChar, ih hrest, if_neg hc]

theorem splitOnChar_append_sep {sep : Char} {a : List Char} (ha : sep ∉ a)
    (b : List Char) : splitOnChar sep (a ++ sep :: b) = a :: splitOnChar sep b := by
  induction a with
  | nil =>
    cases hb : splitOnChar sep b with
    | nil => exact absurd hb (splitOnChar_ne_nil sep b)
    | cons p ps =>
      simp [splitOnChar, hb]
  | cons c rest ih =>
    have hc : ¬(c = sep) := fun e => ha (e ▸ List.mem_cons_self c rest)
    have hrest : sep ∉ rest := fun hm => ha (List.mem_cons.mpr (Or.inr hm))
    simp only [List.cons_append, splitOnChar, List.append_eq, ih hrest, if_neg hc]

theorem splitOnChar_eq_pair {sep : Char} {cs a b : List Char} :
    splitOnChar sep cs = [a, b] ↔
      cs = a ++ sep :: b ∧ sep ∉ a ∧ sep ∉ b := by
  constructor
  · intro h
    have ha : sep ∉ a := not_mem_of_mem_splitOnChar (h ▸ List.mem_cons_self a [b])
    have hb : sep ∉ b :=
      not_mem_of_mem_splitOnChar (h ▸ List.mem_cons.mpr (Or.inr (List.mem_cons_self b [])))
    refine ⟨?_, ha, hb⟩
    have := joinSep_splitOnChar sep cs
    rw [h] at this
    simpa [joinSep] using this.symm
  · rintro ⟨rfl, ha, hb⟩
    rw [splitOnChar_append_sep ha, splitOnChar_no_sep hb]

/-! ### Round-trip facts for the Pages codec -/

theorem space_not_mem_intChars (n : Int) : ' ' ∉ intChars n := by
  intro hmem
  unfold intChars at hmem
  split at hmem
  · rcases List.mem_cons.mp hmem with h1 | h2
    · exact absurd h1 (by decide)
    · exact absurd (mem_natChars_toNat h2) (by decide)
  · exact absurd (mem_natChars_toNat hmem) (by decide)

theorem pagesUnmarshalText_marshalText {n : Int} (h1 : -(2 ^ 63) ≤ n)
    (h2 : n ≤ 2 ^ 63 - 1) : pagesUnmarshalText (pagesMarshalText n) = some n := by
  unfold pagesMarshalText pagesUnmarshalText
  rw [splitOnChar_append_sep (space_not_mem_intChars n),
    splitOnChar_no_sep (by decide : ' ' ∉ "pages".data)]
  show (if "pages".data = "pages".data then parseInt64 (intChars n) else none) = some n
  rw [if_pos rfl]
  exact parseInt64_intChars h1 h2

/-! ### Spec-words tokenizer (used to state the whitespace reading of the
codec's decode precondition) -/

/-- Predicate split: like `splitOnChar` but around every character
satisfying `p`. -/
def splitOnPred (p : Char → Bool) : List Char → List (List Char)
  | [] => [[]]
  | c :: rest =>
    match splitOnPred p rest with
    | [] => [[]]
    | q :: qs => if p c then [] :: q :: qs else (c :: q) :: qs

/-- Whitespace-separated tokens of a character list: maximal runs of
non-whitespace characters. This follows the specification's words
("two whitespace-separated tokens"), for comparison with the code's
split on the space character only. -/
def wsFields (cs : List Char) : List (List Char) :=
  (splitOnPred (fun c => c.isWhitespace) cs).filter (fun f => !f.isEmpty)

/-! ### Field Validator (`internal/validator`) -/

/-- Modelled from the spec: the repository snapshot omits the
`internal/validator` package (only its callers appear). The Validator
holds a mapping from field name to error message with unique keys,
embedded as an association list. `addError` is a no-op when the field
already has an error. -/
def addError (v : List (String × String)) (key message : String) :
    List (String × String) :=
  if v.any (fun e => e.1 = key) then v else v ++ [(key, message)]

/-- Modelled from the spec: `Validator.Check` records the error when the
condition is false; checks never short-circuit. -/
def check (v : List (String × String)) (ok : Bool) (key message : String) :
    List (String × String) :=
  if ok then v else addError v key message

/-- Modelled from the spec: `validator.Unique` — pairwise distinct
strings. -/
def uniqueStrings (l : List String) : Bool :=
  decide l.Nodup

/-! ### Data model (`internal/data`, migration 000001) -/

/-- A persisted row of the `books` table: columns id, created, title,
year, pages, genres, version. -/
structure Row where
  id : Int
  created : Nat
  title : String
  year : Int
  pages : Int
  genres : List String
  version : Int
deriving DecidableEq, Repr

/-- The Book entity of the `data` package. `genres` is `none` for Go's
nil slice. -/
structure Book where
  id : Int := 0
  created : Nat := 0
  title : String := ""
  year : Int := 0
  pages : Int := 0
  genres : Option (List String) := none
  version : Int := 0
deriving DecidableEq, Repr

/-- `ErrRecordNotFound` / `ErrEditConflict` from `internal/data/models.go`. -/
inductive StoreErr where
  | recordNotFound
  | editConflict
deriving DecidableEq, Repr

/-- Scanning a selected row into a `Book` struct. -/
def bookOfRow (r : Row) : Book :=
  { id := r.id, created := r.created, title := r.title, year := r.year,
    pages := r.pages, genres := some r.genres, version := r.version }

/-- The row carrying a book's data (used to state ordering of returned
entities in terms of the table's ORDER BY relation). -/
def rowOfBook (b : Book) : Row :=
  { id := b.id, created := b.created, title := b.title, year := b.year,
    pages := b.pages, genres := b.genres.getD [], version := b.version }

/-! ### Record Store operations (`BookModel`) -/

namespace BookModel

/-- `BookModel.Insert`: INSERT a new row; the store assigns `id` and
`created`, and `version` defaults to 1 (migration 000001); RETURNING
writes them back into the book. `newId`/`now` stand for the
store-generated values. -/
def Insert (db : List Row) (book : Book) (newId : Int) (now : Nat) :
    List Row × Book :=
  let r : Row :=
    { id := newId, created := now, title := book.title, year := book.year,
      pages := book.pages, genres := book.genres.getD [], version := 1 }
  (db ++ [r], { book with id := newId, created := now, version := 1 })

/-- `BookModel.Get`: NotFound when id < 1 or no row matches; otherwise
the scanned entity. -/
def Get (db : List Row) (id : Int) : Except StoreErr Book :=
  if id < 1 then Except.error StoreErr.recordNotFound
  else
    match db.find? (fun r => r.id == id) with
    | none => Except.error StoreErr.recordNotFound
    | some r => Except.ok (bookOfRow r)

/-- The WHERE clause of the Update statement: `id = $5 AND version = $6`. -/
def updateCond (book : Book) (r : Row) : Bool :=
  r.id == book.id && r.version == book.version

/-- `BookModel.Update`: the conditional write
`UPDATE ... SET ..., version = version + 1 WHERE id = $5 AND version = $6
RETURNING version`. Zero rows returned surfaces as `ErrEditConflict`;
otherwise the returned version is scanned into the book. -/
def Update (db : List Row) (book : Book) : List Row × Except StoreErr Book :=
  let db2 := db.map fun r =>
    if updateCond book r then
      { r with title := book.title, year := book.year, pages := book.pages,
               genres := book.genres.getD [], version := r.version + 1 }
    else r
  match (db.filter (updateCond book)).map (fun r => r.version + 1) with
  | [] => (db2, Except.error StoreErr.editConflict)
  | v :: _ => (db2, Except.ok { book with version := v })

/-- `BookModel.Delete`: NotFound when id < 1 or zero rows affected;
otherwise the matching rows are removed. -/
def Delete (db : List Row) (id : Int) : List Row × Except StoreErr Unit :=
  if id < 1 then (db, Except.error StoreErr.recordNotFound)
  else
    let db2 := db.filter fun r => !(r.id == id)
    if db2.length == db.length then (db2, Except.error StoreErr.recordNotFound)
    else (db2, Except.ok ())

end BookModel

/-! ### Query Filter Builder (`data.Filters`), modelled from the spec -/

/-- Modelled from the spec: the repository snapshot omits the Filters
file of the `data` package (only its callers appear). Fields per spec:
page, pageSize, sort, and the caller-supplied sort safelist. -/
structure Filters where
  page : Int
  pageSize : Int
  sort : String
  sortSafelist : List String
deriving DecidableEq, Repr

/-- Modelled from the spec: `sortColumn` — the sort field name with any
leading direction marker removed. -/
def Filters.sortColumn (f : Filters) : String :=
  match f.sort.data with
  | '-' :: rest => String.mk rest
  | _ => f.sort

/-- Modelled from the spec: `sortDirection` — DESC when the leading
direction marker is present, else ASC. -/
def Filters.sortDirection (f : Filters) : String :=
  match f.sort.data with
  | '-' :: _ => "DESC"
  | _ => "ASC"

/-- Modelled from the spec: LIMIT is the page size. -/
def Filters.limit (f : Filters) : Int := f.pageSize

/-- Modelled from the spec: OFFSET skips the earlier pages. -/
def Filters.offset (f : Filters) : Int := (f.page - 1) * f.pageSize

/-- Modelled from the spec: `ValidateFilters` — page ≥ 1, pageSize
between 1 and 100, sort a member of the safelist; all checks
accumulate. -/
def ValidateFilters (f : Filters) : List (String × String) :=
  let v : List (String × String) := []
  let v := check v (decide (f.page ≥ 1)) "page" "must be greater than zero"
  let v := check v (decide (f.pageSize ≥ 1)) "page_size" "must be greater than zero"
  let v := check v (decide (f.pageSize ≤ 100)) "page_size" "must be a maximum of 100"
  check v (f.sortSafelist.contains f.sort) "sort" "invalid sort value"

/-! ### Pagination Metadata Calculator, modelled from the spec -/

/-- Modelled from the spec: Metadata, zero-valued by default. -/
structure Metadata where
  CurrentPage : Int := 0
  PageSize : Int := 0
  FirstPage : Int := 0
  LastPage : Int := 0
  TotalRecords : Int := 0
deriving DecidableEq, Repr

/-- Modelled from the spec: `calculateMetadata` — all-zero metadata when
no records; otherwise lastPage is the ceiling of totalRecords/pageSize
(for positive inputs the integer formula below is that ceiling). -/
def calculateMetadata (totalRecords page pageSize : Int) : Metadata :=
  if totalRecords = 0 then {}
  else
    { CurrentPage := page, PageSize := pageSize, FirstPage := 1,
      LastPage := (totalRecords + pageSize - 1) / pageSize,
      TotalRecords := totalRecords }

/-! ### Listing (`BookModel.GetAll`) -/

/-- The sort key selected by the validated sort column, as a value of one
linearly ordered type (`title` is the only text column; the others are
integers). -/
def colKey (col : String) (r : Row) : Lex (Sum Int String) :=
  if col = "title" then toLex (Sum.inr r.title)
  else if col = "year" then toLex (Sum.inl r.year)
  else if col = "pages" then toLex (Sum.inl r.pages)
  else toLex (Sum.inl r.id)

/-- Key comparison with ascending-id tie-break: strictly smaller key, or
equal keys and id at most the other id. -/
def keyLE (x y : Lex (Sum Int String)) (i j : Int) : Bool :=
  decide (x < y) || (decide (x = y) && decide (i ≤ j))

/-- The ORDER BY relation of the listing query: the sort column in the
requested direction, ties broken by ascending id
(`ORDER BY <col> <dir>, id ASC`). -/
def rowLE (col : String) (desc : Bool) (a b : Row) : Bool :=
  if desc then keyLE (colKey col b) (colKey col a) a.id b.id
  else keyLE (colKey col a) (colKey col b) a.id b.id

/-- Insertion step of the sort embedding the ORDER BY clause. -/
def insertBy {α : Type} (le : α → α → Bool) (a : α) : List α → List α
  | [] => [a]
  | b :: bs => if le a b then a :: b :: bs else b :: insertBy le a bs

/-- Sorting embedding the ORDER BY clause of the listing query. -/
def sortBy {α : Type} (le : α → α → Bool) : List α → List α
  | [] => []
  | a :: as => insertBy le a (sortBy le as)

/-- The WHERE clause of the listing query. Full-text matching of the
title (`to_tsvector @@ plainto_tsquery`) is delegated entirely to the
backing store, so it enters the model as the abstract Boolean `tsMatch`;
the `OR $1 = ''` bypass and the genre containment
(`genres @> $2 OR $2 = '{}'`) are taken from the query text. -/
def rowMatches (tsMatch : String → String → Bool) (title : String)
    (genres : List String) (r : Row) : Bool :=
  (tsMatch r.title title || title == "") &&
    (genres.all (fun g => r.genres.contains g) || genres.isEmpty)

/-- The rows satisfying the WHERE clause, in table order. -/
def matchingRows (tsMatch : String → String → Bool) (db : List Row)
    (title : String) (genres : List String) : List Row :=
  db.filter (rowMatches tsMatch title genres)

/-- The page of rows produced by the listing query: ORDER BY the
validated column and direction with id tie-break, then OFFSET and
LIMIT. -/
def listPage (tsMatch : String → String → Bool) (db : List Row)
    (title : String) (genres : List String) (filters : Filters) : List Row :=
  ((sortBy (rowLE filters.sortColumn (filters.sortDirection == "DESC"))
      (matchingRows tsMatch db title genres)).drop
    filters.offset.toNat).take filters.limit.toNat

/-- `BookModel.GetAll`: one query computes `count(*) OVER()` together with
the ordered, limited page of rows. The scan loop initializes
`totalRecords` to 0 and overwrites it from each returned row, so it
holds the full match count exactly when the page is non-empty. -/
def BookModel.GetAll (tsMatch : String → String → Bool) (db : List Row)
    (title : String) (genres : List String) (filters : Filters) :
    List Book × Metadata :=
  ((listPage tsMatch db title genres filters).map bookOfRow,
    calculateMetadata
      (if (listPage tsMatch db title genres filters).isEmpty then 0
       else ((matchingRows tsMatch db title genres).length : Int))
      filters.page filters.pageSize)

/-! ### Entity validation (`ValidateBook`) -/

/-- `ValidateBook` from the `data` package, check for check: title
non-empty and at most 500 bytes; year non-zero, at least 1888, not in
the future; pages non-zero and positive; genres non-nil, between 1 and
5, and pairwise distinct. `time.Now().Year()` enters as `currentYear`. -/
def ValidateBook (currentYear : Int) (book : Book) : List (String × String) :=
  let genresList := book.genres.getD []
  let v : List (String × String) := []
  let v := check v (decide (book.title ≠ "")) "title" "must be provided"
  let v := check v (decide (book.title.utf8ByteSize ≤ 500)) "title"
    "must not be more than 500 bytes long"
  let v := check v (decide (book.year ≠ 0)) "year" "must be provided"
  let v := check v (decide (book.year ≥ 1888)) "year" "must be greater than 1888"
  let v := check v (decide (book.year ≤ currentYear)) "year" "must not be in the future"
  let v := check v (decide (book.pages ≠ 0)) "pages" "must be provided"
  let v := check v (decide (book.pages > 0)) "pages" "must be a positive integer"
  let v := check v book.genres.isSome "genres" "must be provided"
  let v := check v (decide (genresList.length ≥ 1)) "genres"
    "must contain at least 1 genre"
  let v := check v (decide (genresList.length ≤ 5)) "genres"
    "must not contain more than 5 genres"
  check v (uniqueStrings genresList) "genres" "must not contain duplicate values"

/-! ### Update handler (`cmd/api/books.go`) -/

/-- The PATCH request's decoded input struct: pointer fields are `none`
when the caller did not supply them; `Genres` is a slice, `none` for
nil. -/
structure UpdateInput where
  Title : Option String := none
  Year : Option Int := none
  Pages : Option Int := none
  Genres : Option (List String) := none
deriving DecidableEq, Repr

/-- The handler's field merge: only supplied fields overwrite the
freshly fetched entity. -/
def mergeBook (book : Book) (inp : UpdateInput) : Book :=
  let b1 := match inp.Title with
    | some t => { book with title := t }
    | none => book
  let b2 := match inp.Year with
    | some y => { b1 with year := y }
    | none => b1
  let b3 := match inp.Pages with
    | some p => { b2 with pages := p }
    | none => b2
  match inp.Genres with
  | some g => { b3 with genres := some g }
  | none => b3

/-- `app.readID`: parse the id path parameter; error when it does not
parse or is below 1. -/
def readID (idParam : String) : Option Int :=
  match parseInt64 idParam.data with
  | none => none
  | some id => if id < 1 then none else some id

/-- `strconv.FormatInt(v, 10)`. -/
def formatInt (v : Int) : String :=
  String.mk (intChars v)

/-- Outcome of the handler, standing for the HTTP response kind. -/
inductive HandlerResult where
  | notFound
  | editConflict
  | badRequest
  | failedValidation (errs : List (String × String))
  | serverError
  | ok (book : Book)
deriving DecidableEq, Repr

/-- `updateBookHandler`: read the id, fetch the record, run the
`X-Expected-Version` precheck, decode the body (`none` embeds a decode
failure), merge supplied fields, re-validate, and perform the
conditional write. -/
def updateBookHandler (currentYear : Int) (db : List Row) (idParam : String)
    (expectedVersion : String) (body : Option UpdateInput) :
    HandlerResult × List Row :=
  match readID idParam with
  | none => (HandlerResult.notFound, db)
  | some id =>
    match BookModel.Get db id with
    | Except.error StoreErr.recordNotFound => (HandlerResult.notFound, db)
    | Except.error _ => (HandlerResult.serverError, db)
    | Except.ok book =>
      if expectedVersion ≠ "" ∧ formatInt book.version ≠ expectedVersion then
        (HandlerResult.editConflict, db)
      else
        match body with
        | none => (HandlerResult.badRequest, db)
        | some inp =>
          let book2 := mergeBook book inp
          let v := ValidateBook currentYear book2
          if ¬v.isEmpty then (HandlerResult.failedValidation v, db)
          else
            match BookModel.Update db book2 with
            | (db2, Except.error StoreErr.editConflict) =>
              (HandlerResult.editConflict, db2)
            | (db2, Except.error _) => (HandlerResult.serverError, db2)
            | (db2, Except.ok b) => (HandlerResult.ok b, db2)

/-! ### Validator lemmas -/

theorem any_addError {v : List (String × String)} {p : String × String → Bool}
    (h : v.any p = true) (key message : String) :
    (addError v key message).any p = true := by
  unfold addError
  split
  · exact h
  · simp [List.any_append, h]

theorem any_check {v : List (String × String)} {p : String × String → Bool}
    (h : v.any p = true) (ok : Bool) (key message : String) :
    (check v ok key message).any p = true := by
  unfold check
  split
  · exact h
  · exact any_addError h key message

theorem any_key_addError (v : List (String × String)) (key message : String) :
    (addError v key message).any (fun e => e.1 = key) = true := by
  unfold addError
  split
  · next h => exact h
  · simp [List.any_append]

theorem any_key_check_false (v : List (String × String)) (key message : String) :
    (check v false key message).any (fun e => e.1 = key) = true :=
  any_key_addError v key message

/-! ### Sorting lemmas -/

theorem insertBy_length {α : Type} (le : α → α → Bool) (a : α) (l : List α) :
    (insertBy le a l).length = l.length + 1 := by
  induction l with
  | nil => rfl
  | cons b bs ih =>
    unfold insertBy
    split
    · rfl
    · simp [ih]

theorem sortBy_length {α : Type} (le : α → α → Bool) (l : List α) :
    (sortBy le l).length = l.length := by
  induction l with
  | nil => rfl
  | cons a as ih =>
    unfold sortBy
    rw [insertBy_length, ih, List.length_cons]

theorem mem_insertBy {α : Type} {le : α → α → Bool} {a x : α} {l : List α} :
    x ∈ insertBy le a l ↔ x = a ∨ x ∈ l := by
  induction l with
  | nil => simp [insertBy]
  | cons b bs ih =>
    unfold insertBy
    split
    · simp [List.mem_cons]
    · simp only [List.mem_cons, ih]
      tauto

theorem pairwise_insertBy {α : Type} {le : α → α → Bool}
    (total : ∀ a b, le a b = true ∨ le b a = true)
    (trans : ∀ a b c, le a b = true → le b c = true → le a c = true)
    (a : α) {l : List α}
    (hl : l.Pairwise (fun x y => le x y = true)) :
    (insertBy le a l).Pairwise (fun x y => le x y = true) := by
  induction l with
  | nil => simp [insertBy]
  | cons b bs ih =>
    rcases List.pairwise_cons.mp hl with ⟨hb, hbs⟩
    unfold insertBy
    split
    · next hab =>
      refine List.pairwise_cons.mpr ⟨?_, hl⟩
      intro x hx
      rcases List.mem_cons.mp hx with h1 | h2
      · exact h1 ▸ hab
      · exact trans a b x hab (hb x h2)
    · next hab =>
      refine List.pairwise_cons.mpr ⟨?_, ih hbs⟩
      intro x hx
      rcases mem_insertBy.mp hx with h1 | h2
      · rcases total x b with h | h
        · rw [h1] at h
          exact absurd h hab
        · exact h
      · exact hb x h2

theorem pairwise_sortBy {α : Type} {le : α → α → Bool}
    (total : ∀ a b, le a b = true ∨ le b a = true)
    (trans : ∀ a b c, le a b = true → le b c = true → le a c = true)
    (l : List α) :
    (sortBy le l).Pairwise (fun x y => le x y = true) := by
  induction l with
  | nil => simp [sortBy]
  | cons a as ih =>
    unfold sortBy
    exact pairwise_insertBy total trans a ih

/-! ### The ORDER BY relation is total and transitive -/

theorem keyLE_total (x y : Lex (Sum Int String)) (i j : Int) :
    keyLE x y i j = true ∨ keyLE y x j i = true := by
  unfold keyLE
  simp only [Bool.or_eq_true, Bool.and_eq_true, decide_eq_true_eq]
  rcases lt_trichotomy x y with h | h | h
  · exact Or.inl (Or.inl h)
  · rcases le_total i j with h2 | h2
    · exact Or.inl (Or.inr ⟨h, h2⟩)
    · exact Or.inr (Or.inr ⟨h.symm, h2⟩)
  · exact Or.inr (Or.inl h)

theorem keyLE_trans {x y z : Lex (Sum Int String)} {i j k : Int}
    (h1 : keyLE x y i j = true) (h2 : keyLE y z j k = true) :
    keyLE x z i k = true := by
  unfold keyLE at *
  simp only [Bool.or_eq_true, Bool.and_eq_true, decide_eq_true_eq] at *
  rcases h1 with h1 | ⟨h1, h1i⟩
  · rcases h2 with h2 | ⟨h2, _⟩
    · exact Or.inl (h1.trans h2)
    · exact Or.inl (h2 ▸ h1)
  · rcases h2 with h2 | ⟨h2, h2i⟩
    · exact Or.inl (h1 ▸ h2)
    · exact Or.inr ⟨h1.trans h2, h1i.trans h2i⟩

theorem keyLE_trans_desc {x y z : Lex (Sum Int String)} {i j k : Int}
    (h1 : keyLE y x i j = true) (h2 : keyLE z y j k = true) :
    keyLE z x i k = true := by
  unfold keyLE at *
  simp only [Bool.or_eq_true, Bool.and_eq_true, decide_eq_true_eq] at *
  rcases h1 with h1 | ⟨h1, h1i⟩
  · rcases h2 with h2 | ⟨h2, _⟩
    · exact Or.inl (h2.trans h1)
    · exact Or.inl (h2 ▸ h1)
  · rcases h2 with h2 | ⟨h2, h2i⟩
    · exact Or.inl (h1 ▸ h2)
    · exact Or.inr ⟨h2.trans h1, h1i.trans h2i⟩

theorem rowLE_false (col : String) (a b : Row) :
    rowLE col false a b = keyLE (colKey col a) (colKey col b) a.id b.id := rfl

theorem rowLE_true (col : String) (a b : Row) :
    rowLE col true a b = keyLE (colKey col b) (colKey col a) a.id b.id := rfl

theorem rowLE_total (col : String) (desc : Bool) (a b : Row) :
    rowLE col desc a b = true ∨ rowLE col desc b a = true := by
  cases desc
  · rw [rowLE_false, rowLE_false]
    exact keyLE_total (colKey col a) (colKey col b) a.id b.id
  · rw [rowLE_true, rowLE_true]
    exact keyLE_total (colKey col b) (colKey col a) a.id b.id

theorem rowLE_trans (col : String) (desc : Bool) (a b c : Row)
    (h1 : rowLE col desc a b = true) (h2 : rowLE col desc b c = true) :
    rowLE col desc a c = true := by
  cases desc
  · rw [rowLE_false] at h1 h2 ⊢
    exact keyLE_trans h1 h2
  · rw [rowLE_true] at h1 h2 ⊢
    exact keyLE_trans_desc h1 h2

/-- On the `year` column the sort key is the year. -/
theorem colKey_year (r : Row) : colKey "year" r = toLex (Sum.inl r.year) := by
  have h1 : ("year" = "title") = False := by simp
  have h2 : ("year" = "year") = True := by simp
  simp [colKey, h1, h2]

/-- Unfolding of the ORDER BY relation for sort value `-year`: year
descending, ties broken by ascending id. -/
theorem rowLE_year_desc (a b : Row) :
    rowLE "year" true a b = true ↔
      b.year < a.year ∨ (b.year = a.year ∧ a.id ≤ b.id) := by
  unfold rowLE keyLE
  rw [if_pos rfl, colKey_year, colKey_year]
  simp only [Bool.or_eq_true, Bool.and_eq_true, decide_eq_true_eq,
    Sum.Lex.inl_lt_inl_iff, toLex_inj, Sum.inl.injEq]

/-! ### Generic list helper lemmas -/

theorem map_eq_self_of {α : Type} (f : α → α) (l : List α)
    (h : ∀ a ∈ l, f a = a) : l.map f = l := by
  induction l with
  | nil => rfl
  | cons a as ih =>
    simp only [List.map_cons, h a (List.mem_cons_self a as)]
    rw [ih fun x hx => h x (List.mem_cons.mpr (Or.inr hx))]

theorem updateCond_id {book : Book} {x : Row}
    (h : BookModel.updateCond book x = true) :
    x.id = book.id ∧ x.version = book.version := by
  simpa [BookModel.updateCond, Bool.and_eq_true, beq_iff_eq] using h

theorem filter_updateCond_eq {db : List Row} {book : Book} {r : Row}
    (huniq : db.Pairwise (fun a b => a.id ≠ b.id))
    (hmem : r ∈ db) (hr : BookModel.updateCond book r = true) :
    db.filter (BookModel.updateCond book) = [r] := by
  induction db with
  | nil => cases hmem
  | cons a as ih =>
    rcases List.pairwise_cons.mp huniq with ⟨ha, has⟩
    rcases List.mem_cons.mp hmem with h1 | h2
    · rw [List.filter_cons, if_pos (h1 ▸ hr)]
      have hnil : as.filter (BookModel.updateCond book) = [] := by
        rw [List.filter_eq_nil_iff]
        intro b hb hpb
        have hbid : b.id = book.id := (updateCond_id (by simpa using hpb)).1
        have hrid : r.id = book.id := (updateCond_id hr).1
        exact ha b hb (by rw [h1] at hrid; rw [hrid, hbid])
      rw [hnil, h1]
    · have hcond : BookModel.updateCond book a = false := by
        by_contra hc
        have hatrue : BookModel.updateCond book a = true := by
          cases h : BookModel.updateCond book a
          · exact absurd h hc
          · rfl
        have haid : a.id = book.id := (updateCond_id hatrue).1
        have hrid : r.id = book.id := (updateCond_id hr).1
        exact ha r h2 (by rw [haid, hrid])
      rw [List.filter_cons, if_neg (by simp [hcond])]
      exact ih has h2

/-! ## Claim theorems -/

/-- **C4**: for every int64-representable integer n, the Pages encoder
produces the text `<n> pages` and decoding that encoding returns
exactly n. -/
theorem pages_codec_roundtrip (n : Int) (h1 : -(2 ^ 63) ≤ n)
    (h2 : n ≤ 2 ^ 63 - 1) :
    pagesMarshalText n = intChars n ++ (' ' :: "pages".data) ∧
    pagesUnmarshalText (pagesMarshalText n) = some n :=
  ⟨rfl, pagesUnmarshalText_marshalText h1 h2⟩

/-- Witness for C4 at n = 42. -/
theorem pages_codec_roundtrip_witness :
    -(2 ^ 63) ≤ (42 : Int) ∧ (42 : Int) ≤ 2 ^ 63 - 1 ∧
    pagesUnmarshalText (pagesMarshalText 42) = some 42 :=
  ⟨by norm_num, by norm_num,
    (pages_codec_roundtrip 42 (by norm_num) (by norm_num)).2⟩

/-- **C5 (amended)**: decode succeeds exactly when the input is two
tokens separated by a single space character, with the second token the
literal `pages` and the first parsing as a base-10 int64; every
deviation fails with InvalidFormat. -/
theorem pages_decode_success_iff (cs : List Char) :
    (pagesUnmarshalText cs).isSome = true ↔
      ∃ t : List Char, cs = t ++ ' ' :: "pages".data ∧ ' ' ∉ t ∧
        (parseInt64 t).isSome = true := by
  constructor
  · intro h
    unfold pagesUnmarshalText at h
    cases hs : splitOnChar ' ' cs with
    | nil => exact absurd hs (splitOnChar_ne_nil _ _)
    | cons p ps =>
      rw [hs] at h
      cases ps with
      | nil =>
        have h' : (none : Option Int).isSome = true := h
        simp at h'
      | cons q qs =>
        cases qs with
        | nil =>
          by_cases hq : q = "pages".data
          · subst hq
            have h' : (if "pages".data = "pages".data then parseInt64 p
                else none).isSome = true := h
            rw [if_pos rfl] at h'
            obtain ⟨hcs, hp, _⟩ := splitOnChar_eq_pair.mp hs
            exact ⟨p, hcs, hp, h'⟩
          · have h' : (if q = "pages".data then parseInt64 p
                else none).isSome = true := h
            rw [if_neg hq] at h'
            simp at h'
        | cons r rs =>
          have h' : (none : Option Int).isSome = true := h
          simp at h'
  · rintro ⟨t, rfl, ht, hparse⟩
    unfold pagesUnmarshalText
    rw [splitOnChar_append_sep ht, splitOnChar_no_sep
      (by decide : ' ' ∉ "pages".data)]
    show (if "pages".data = "pages".data then parseInt64 t
        else none).isSome = true
    rw [if_pos rfl]
    exact hparse

/-- **C5 (counterexample)**: the input `42<TAB>pages` consists of two
whitespace-separated tokens, the second the literal `pages` and the
first a base-10 integer, yet decode fails: the code splits on the space
character only, so the claim's "whitespace-separated" reading is false
on this input. -/
theorem pages_decode_whitespace_counterexample :
    wsFields ("42\tpages".data) = ["42".data, "pages".data] ∧
    (parseInt64 ("42".data)).isSome = true ∧
    pagesUnmarshalText ("42\tpages".data) = none := by
  refine ⟨by decide, by decide, by decide⟩

/-- **C10**: the Pages codec imposes no positivity constraint — every
int64 value n, zero and negative values included, decodes successfully
from the text `<n> pages`; positivity of the pages field is enforced
only later by `ValidateBook`, which flags the `pages` field whenever it
is not positive. -/
theorem pages_decode_no_positivity (n : Int) (h1 : -(2 ^ 63) ≤ n)
    (h2 : n ≤ 2 ^ 63 - 1) :
    pagesUnmarshalText (intChars n ++ ' ' :: "pages".data) = some n ∧
    (∀ (currentYear : Int) (book : Book), book.pages ≤ 0 →
      ((ValidateBook currentYear book).any fun e => e.1 = "pages") = true) := by
  constructor
  · exact pagesUnmarshalText_marshalText h1 h2
  · intro cy book hp
    simp only [ValidateBook]
    apply any_check
    apply any_check
    apply any_check
    apply any_check
    rw [decide_eq_false (by omega : ¬(book.pages > 0))]
    exact any_key_check_false _ _ _

/-- Witness for C10 at n = -5. -/
theorem pages_decode_no_positivity_witness :
    -(2 ^ 63) ≤ (-5 : Int) ∧ (-5 : Int) ≤ 2 ^ 63 - 1 ∧
    pagesUnmarshalText ("-5 pages".data) = some (-5) ∧
    ((ValidateBook 2024 { pages := -5 }).any fun e => e.1 = "pages") = true := by
  refine ⟨by norm_num, by norm_num, ?_, ?_⟩
  · have h := (pages_decode_no_positivity (-5) (by norm_num) (by norm_num)).1
    have he : intChars (-5) ++ ' ' :: "pages".data = "-5 pages".data := by decide
    rw [he] at h
    exact h
  · exact (pages_decode_no_positivity (-5) (by norm_num) (by norm_num)).2
      2024 { pages := -5 } (by norm_num)

/-- Sample stored row (version 3) used by concrete witnesses. -/
def sampleRow : Row :=
  { id := 1, created := 0, title := "Dune", year := 1965, pages := 412,
    genres := ["scifi"], version := 3 }

/-- Sample book carrying the stored version 3. -/
def sampleBook : Book :=
  { id := 1, created := 0, title := "Dune", year := 1965, pages := 412,
    genres := some ["scifi"], version := 3 }

/-- **C1**: when no stored row with the book's id carries the supplied
version (a stale version), Update fails with EditConflict and the
stored state is left completely unchanged; the conditional write is one
atomic step of the model, so an update can succeed only when the stored
version equals the caller's in-hand version. -/
theorem update_stale_version_conflict (db : List Row) (book : Book)
    (h : ∀ r ∈ db, r.id = book.id → r.version ≠ book.version) :
    BookModel.Update db book = (db, Except.error StoreErr.editConflict) := by
  have hcond : ∀ r ∈ db, BookModel.updateCond book r = false := by
    intro r hr
    cases hc : BookModel.updateCond book r
    · rfl
    · exact absurd (updateCond_id hc).2 (h r hr (updateCond_id hc).1)
  have hfil : db.filter (BookModel.updateCond book) = [] := by
    rw [List.filter_eq_nil_iff]
    intro a ha
    simp [hcond a ha]
  have hmap : (db.map fun r =>
      if BookModel.updateCond book r then
        { r with title := book.title, year := book.year, pages := book.pages,
                 genres := book.genres.getD [], version := r.version + 1 }
      else r) = db := by
    apply map_eq_self_of
    intro a ha
    rw [if_neg (by simp [hcond a ha])]
  simp only [BookModel.Update]
  rw [hfil, hmap]
  simp only [List.map_nil]

/-- Witness for C1: the stored record is at version 3, the caller
supplies version 2. -/
theorem update_stale_version_conflict_witness :
    BookModel.Update [sampleRow] { sampleBook with version := 2 } =
      ([sampleRow], Except.error StoreErr.editConflict) :=
  update_stale_version_conflict _ _ (by decide)

/-- **C2**: when a stored row carries the book's id and version (ids
unique), Update returns the book with the version incremented by
exactly 1 and every stored row with that id ends at its old version
plus 1; Insert creates records at version 1. -/
theorem update_increments_version (db : List Row) (book : Book) (r : Row)
    (huniq : db.Pairwise fun a b => a.id ≠ b.id)
    (hmem : r ∈ db) (hid : r.id = book.id) (hver : r.version = book.version) :
    (BookModel.Update db book).2 =
        Except.ok { book with version := book.version + 1 } ∧
    (∀ r2 ∈ (BookModel.Update db book).1, r2.id = book.id →
        r2.version = book.version + 1) ∧
    (∀ (db0 : List Row) (b : Book) (newId : Int) (now : Nat),
        (BookModel.Insert db0 b newId now).2.version = 1 ∧
        ∀ rn ∈ (BookModel.Insert db0 b newId now).1, rn ∉ db0 →
          rn.version = 1) := by
  have hcond : BookModel.updateCond book r = true := by
    simp [BookModel.updateCond, hid, hver]
  have hfil := filter_updateCond_eq huniq hmem hcond
  refine ⟨?_, ?_, ?_⟩
  · simp only [BookModel.Update]
    rw [hfil]
    simp [hver]
  · intro r2 hr2 hrid
    simp only [BookModel.Update, hfil, List.map_cons, List.map_nil] at hr2
    rcases List.mem_map.mp hr2 with ⟨r0, hr0, hfr0⟩
    by_cases hc : BookModel.updateCond book r0 = true
    · rw [if_pos hc] at hfr0
      rw [← hfr0]
      simp [(updateCond_id hc).2]
    · rw [if_neg hc] at hfr0
      have hr0r : r0 = r := by
        by_contra hne
        have hsym : Symmetric fun a b : Row => a.id ≠ b.id :=
          fun x y hxy e => hxy e.symm
        have := List.Pairwise.forall hsym huniq hr0 hmem hne
        rw [hfr0] at this
        exact this (hrid.trans hid.symm)
      rw [hr0r] at hc
      exact absurd hcond hc
  · intro db0 b newId now
    refine ⟨rfl, ?_⟩
    intro rn hrn hnot
    simp only [BookModel.Insert] at hrn
    rcases List.mem_append.mp hrn with h1 | h2
    · exact absurd h1 hnot
    · rcases List.mem_singleton.mp h2 with rfl
      rfl

/-- Witness for C2: updating the sample record at its stored version 3. -/
theorem update_increments_version_witness :
    (BookModel.Update [sampleRow] sampleBook).2 =
        Except.ok { sampleBook with version := sampleBook.version + 1 } ∧
    (∀ r2 ∈ (BookModel.Update [sampleRow] sampleBook).1,
        r2.id = sampleBook.id → r2.version = sampleBook.version + 1) ∧
    (∀ (db0 : List Row) (b : Book) (newId : Int) (now : Nat),
        (BookModel.Insert db0 b newId now).2.version = 1 ∧
        ∀ rn ∈ (BookModel.Insert db0 b newId now).1, rn ∉ db0 →
          rn.version = 1) :=
  update_increments_version [sampleRow] sampleBook sampleRow
    (by simp) (by simp) (by decide) (by decide)

/-- **C7**: the update handler's merge overwrites exactly the supplied
fields: each supplied field replaces the fetched value, each unsupplied
field keeps the fetched stored value, and id, created and version are
never touched by the merge — no field is silently defaulted. -/
theorem mergeBook_partial_update (book : Book) (inp : UpdateInput) :
    (mergeBook book inp).title = inp.Title.getD book.title ∧
    (mergeBook book inp).year = inp.Year.getD book.year ∧
    (mergeBook book inp).pages = inp.Pages.getD book.pages ∧
    (mergeBook book inp).genres = (inp.Genres.map some).getD book.genres ∧
    (mergeBook book inp).id = book.id ∧
    (mergeBook book inp).created = book.created ∧
    (mergeBook book inp).version = book.version := by
  cases inp with
  | mk t y p g =>
    cases t <;> cases y <;> cases p <;> cases g <;>
      simp [mergeBook]

/-- **C9**: a non-empty X-Expected-Version header whose value differs
from the decimal rendering of the fetched record's current version makes
the handler answer EditConflict for every possible request body (the
body is never consulted, so no merge happens), leaving the stored state
unchanged. -/
theorem update_handler_version_precheck (currentYear : Int) (db : List Row)
    (idParam : String) (hdr : String) (id : Int) (book : Book)
    (hid : readID idParam = some id)
    (hget : BookModel.Get db id = Except.ok book)
    (hne : hdr ≠ "") (hv : formatInt book.version ≠ hdr) :
    ∀ body : Option UpdateInput,
      updateBookHandler currentYear db idParam hdr body =
        (HandlerResult.editConflict, db) := by
  intro body
  simp only [updateBookHandler, hid, hget]
  rw [if_pos ⟨hne, hv⟩]

/-- Witness for C9: stored version 3, header value `2`. -/
theorem update_handler_version_precheck_witness :
    updateBookHandler 2024 [sampleRow] "1" "2" none =
      (HandlerResult.editConflict, [sampleRow]) :=
  update_handler_version_precheck 2024 [sampleRow] "1" "2" 1
    (bookOfRow sampleRow) (by decide) rfl (by decide) (by decide) none

/-- Safelist used by the listing handler (`listBooksHandler`). -/
def sampleSafelist : List String :=
  ["id", "title", "year", "pages", "-id", "-title", "-year", "-pages"]

/-- Validated filters requesting page 2 of size 20, sorted by id. -/
def samplePage2Filters : Filters :=
  { page := 2, pageSize := 20, sort := "id", sortSafelist := sampleSafelist }

/-- Validated filters requesting page 1 of size 20, sorted by id. -/
def samplePage1Filters : Filters :=
  { page := 1, pageSize := 20, sort := "id", sortSafelist := sampleSafelist }

/-- Validated filters requesting page 1 of size 20, sort value `-year`. -/
def sampleYearFilters : Filters :=
  { page := 1, pageSize := 20, sort := "-year", sortSafelist := sampleSafelist }

/-- A second sample row with a different id and year. -/
def sampleRow2 : Row :=
  { id := 2, created := 0, title := "Solaris", year := 1970, pages := 204,
    genres := ["scifi"], version := 1 }

/-- **C3 (counterexample)**: one stored matching row, validated filters
page=2/pageSize=20: the returned page is empty and the metadata's
TotalRecords is 0, not the match count 1 — the scan loop only sees
`count(*) OVER()` on returned rows, so the claim fails for windows past
the matches. -/
theorem getAll_totalRecords_counterexample :
    ValidateFilters samplePage2Filters = [] ∧
    (matchingRows (fun _ _ => false) [sampleRow] "" []).length = 1 ∧
    (BookModel.GetAll (fun _ _ => false) [sampleRow] "" []
        samplePage2Filters).2.TotalRecords = 0 := by
  refine ⟨by decide, by decide, by decide⟩

/-- **C3 (amended)**: count and page come from the one query execution:
whenever the returned page is non-empty, TotalRecords equals the number
of rows matching the title and genre predicates ignoring limit/offset;
when the requested window lies past the matches (empty page), the
all-zero metadata is returned. -/
theorem getAll_totalRecords (tsMatch : String → String → Bool) (db : List Row)
    (title : String) (genres : List String) (f : Filters) :
    ((BookModel.GetAll tsMatch db title genres f).1 ≠ [] →
      (BookModel.GetAll tsMatch db title genres f).2.TotalRecords =
        ((matchingRows tsMatch db title genres).length : Int)) ∧
    ((BookModel.GetAll tsMatch db title genres f).1 = [] →
      (BookModel.GetAll tsMatch db title genres f).2 = {}) := by
  constructor
  · intro hne
    have hpage : listPage tsMatch db title genres f ≠ [] := by
      intro he
      apply hne
      simp [BookModel.GetAll, he]
    have hlen : (matchingRows tsMatch db title genres).length ≠ 0 := by
      intro h0
      apply hpage
      have hm : matchingRows tsMatch db title genres = [] :=
        List.length_eq_zero.mp h0
      simp [listPage, hm, sortBy]
    simp only [BookModel.GetAll]
    rw [if_neg (by simpa [List.isEmpty_iff] using hpage)]
    unfold calculateMetadata
    rw [if_neg (by exact_mod_cast hlen)]
  · intro he
    have hpage : listPage tsMatch db title genres f = [] := by
      simpa only [BookModel.GetAll, List.map_eq_nil_iff] using he
    simp [BookModel.GetAll, hpage, calculateMetadata]

/-- Witness for C3 (amended): page 1 of one matching row reports
TotalRecords 1. -/
theorem getAll_totalRecords_witness :
    (BookModel.GetAll (fun _ _ => false) [sampleRow] "" []
        samplePage1Filters).2.TotalRecords = 1 := by
  have h := (getAll_totalRecords (fun _ _ => false) [sampleRow] "" []
    samplePage1Filters).1 (by decide)
  rw [h]
  decide

/-- **C6**: the returned entities are pairwise ordered by the validated
sort column in the validated direction with an ascending tie-break on
id — a deterministic total order; in particular for sort value `-year`
the listing is ordered by year descending, ties broken by ascending
id. -/
theorem getAll_sorted (tsMatch : String → String → Bool) (db : List Row)
    (title : String) (genres : List String) (f : Filters) :
    (BookModel.GetAll tsMatch db title genres f).1.Pairwise
      (fun a b => rowLE f.sortColumn (f.sortDirection == "DESC")
        (rowOfBook a) (rowOfBook b) = true) ∧
    (f.sort = "-year" →
      (BookModel.GetAll tsMatch db title genres f).1.Pairwise
        (fun a b => b.year < a.year ∨ (b.year = a.year ∧ a.id ≤ b.id))) := by
  have hrows : (listPage tsMatch db title genres f).Pairwise
      (fun a b => rowLE f.sortColumn (f.sortDirection == "DESC") a b = true) := by
    have hsorted := pairwise_sortBy
      (rowLE_total f.sortColumn (f.sortDirection == "DESC"))
      (rowLE_trans f.sortColumn (f.sortDirection == "DESC"))
      (matchingRows tsMatch db title genres)
    have hsub : List.Sublist (listPage tsMatch db title genres f)
        (sortBy (rowLE f.sortColumn (f.sortDirection == "DESC"))
          (matchingRows tsMatch db title genres)) :=
      (List.take_sublist _ _).trans (List.drop_sublist _ _)
    exact hsorted.sublist hsub
  have hbooks : (BookModel.GetAll tsMatch db title genres f).1.Pairwise
      (fun a b => rowLE f.sortColumn (f.sortDirection == "DESC")
        (rowOfBook a) (rowOfBook b) = true) := by
    simp only [BookModel.GetAll]
    exact hrows.map bookOfRow (fun a b h => h)
  refine ⟨hbooks, ?_⟩
  intro hy
  have hcol : f.sortColumn = "year" := by
    unfold Filters.sortColumn
    rw [hy]
    decide
  have hdir : (f.sortDirection == "DESC") = true := by
    unfold Filters.sortDirection
    rw [hy]
    decide
  refine List.Pairwise.imp ?_ hbooks
  intro a b h
  rw [hcol, hdir] at h
  exact (rowLE_year_desc (rowOfBook a) (rowOfBook b)).mp h

/-- Witness for C6: two stored rows listed under sort `-year` come back
year-descending with the id tie-break relation. -/
theorem getAll_sorted_witness :
    (BookModel.GetAll (fun _ _ => false) [sampleRow, sampleRow2] "" []
        sampleYearFilters).1.Pairwise
      (fun a b => b.year < a.year ∨ (b.year = a.year ∧ a.id ≤ b.id)) :=
  (getAll_sorted (fun _ _ => false) [sampleRow, sampleRow2] "" []
    sampleYearFilters).2 rfl

end LibraryAPI
